import Mathlib

/-!
Verification development for the command-language front end of the
ConsoleRouletteSimulator repository: the character-stream lexer
(`CLILexer.hpp`), the stream hook, the recursive-descent parser and the
error reporter (`CLIParser.hpp`).

The C++ code is embedded shallowly:

* characters are `Char`, strings are `String`, streams are a `List Char`
  of not-yet-consumed characters together with the hook's counters;
* 64-bit machine integers are `Int` (no arithmetic in the embedded code
  ever overflows: values are produced by the standard library's checked
  integer parse, which rejects out-of-range literals);
* C++ `double`/`float` values are modelled as exact rationals `ℚ`;
  the standard-library conversions that produce them (`istream >> float`,
  `std::stod`, `std::to_string`) are modelled as exact decimal
  parsing/printing.  This is faithful for every literal whose value is
  exactly representable, which covers all inputs considered here;
* loops are tail-recursive functions; loops whose termination depends on
  the stream shrinking recurse structurally on the unconsumed input, and
  the parser loops take an explicit fuel parameter, where exhaustion
  (`PR.out`) models divergence;
* thrown `std::runtime_error` diagnostics become an explicit error result
  carrying the structured data each `ErrorReporter` entry point receives.
-/

namespace ArgCLITool

/-- Embeds `CLIToken::Type` from `CLILexer.hpp`. -/
inductive TokenType where
  | Identifier
  | String
  | Integer
  | Float
  | LeftParen
  | RightParen
  | LeftBracket
  | RightBracket
  | LeftCurly
  | RightCurly
  | Comma
  | EndOfLine
  | Comment
  | EndOfFile
  | Unknown
deriving DecidableEq, Repr

/-- Embeds `CLIToken`.  `begin`/`end` are Lean keywords, hence `tbegin`/`tend`. -/
structure CLIToken where
  type : TokenType
  value : String
  tbegin : Int
  tend : Int
deriving DecidableEq, Repr

/-- The state of `CLIInputStreamHook`: the unconsumed rest of the wrapped
stream plus the hook's own counters (`stream_position_`, `consumed_chars_`,
`position_`, `line_number_`, `current_line_number_`). -/
structure HookState where
  input : List Char
  streamPos : Int
  consumed : List Char
  pos : Int
  lineNo : Int
  curLineNo : Int
deriving DecidableEq, Repr

/-- A fresh hook wrapping a raw stream that will deliver `s`. -/
def hookInit (s : String) : HookState :=
  ⟨s.data, 0, [], 0, 1, 1⟩

/-- Embeds `CLIInputStreamHook::get`: consume one character, recording it. -/
def hookGet (s : HookState) : Option (Char × HookState) :=
  match s.input with
  | [] => none
  | c :: rest =>
      some (c, ⟨rest, s.streamPos + 1, s.consumed ++ [c], s.pos, s.lineNo,
        if c = '\n' then s.curLineNo + 1 else s.curLineNo⟩)

/-- The end-of-file marker `std::char_traits<char>::eof()` seen through the
`char`-returning `CLIInputStream::peek` interface: `(char)(-1)`, i.e. byte
255. -/
def eofChar : Char := Char.ofNat 255

/-- Embeds `CLIInputStreamHook::peek` (via `CLIStdInputStream::peek`, which returns
the eof marker as a `char` once the stream is exhausted). -/
def hookPeek (s : HookState) : Char :=
  match s.input with
  | [] => eofChar
  | c :: _ => c

/-- Embeds `CLIInputStreamHook::unget` in the only situation the lexer uses it:
right after a successful `get`. -/
def hookUnget (s : HookState) : HookState :=
  match s.consumed.getLast? with
  | none => s
  | some c =>
      ⟨c :: s.input, s.streamPos - 1, s.consumed.dropLast, s.pos, s.lineNo,
        if c = '\n' then s.curLineNo - 1 else s.curLineNo⟩

/-- Embeds `CLIInputStreamHook::clearConsumedTokens`. -/
def clearHook (s : HookState) : HookState :=
  ⟨s.input, s.streamPos, [], s.streamPos, s.curLineNo, s.curLineNo⟩

/-- Embeds `CLILexer::isDigit`. -/
def isDigit (c : Char) : Bool := '0' ≤ c && c ≤ '9'

/-- Embeds `CLILexer::isAlpha`. -/
def isAlpha (c : Char) : Bool := ('a' ≤ c && c ≤ 'z') || ('A' ≤ c && c ≤ 'Z')

/-- Numeric value of a decimal digit character. -/
def digitVal (c : Char) : Nat := c.toNat - '0'.toNat

/-- Value of a nonempty all-digit character list, `none` otherwise. -/
def decDigits? (l : List Char) : Option Nat :=
  if l = [] then none
  else if l.all (fun c => isDigit c) then
    some (l.foldl (fun a c => a * 10 + digitVal c) 0)
  else none

def int64Min : Int := -(2 ^ 63)

def int64Max : Int := 2 ^ 63 - 1

/-- Model of `std::istringstream iss(s); iss >> integer;` followed by the
check `iss.eof() && !iss.fail()` for a 64-bit signed `integer`: the whole
string must be an optionally signed decimal literal whose value fits in 64
bits (overflow sets `failbit` since C++11). -/
def parseInt64 (s : String) : Option Int :=
  let (sgn, ds) : Int × List Char :=
    match s.data with
    | '+' :: r => (1, r)
    | '-' :: r => (-1, r)
    | r => (1, r)
  match decDigits? ds with
  | none => none
  | some n =>
      let v : Int := sgn * (n : Int)
      if int64Min ≤ v ∧ v ≤ int64Max then some v else none

/-- Decimal digits of a natural number (explicit fuel keeps the recursion
structural so that concrete values reduce inside the kernel). -/
def natDigitsAux : Nat → Nat → List Char
  | 0, _ => []
  | f + 1, n =>
      if n < 10 then [Char.ofNat ('0'.toNat + n)]
      else natDigitsAux f (n / 10) ++ [Char.ofNat ('0'.toNat + n % 10)]

def natToString (n : Nat) : String := String.mk (natDigitsAux (n + 1) n)

/-- Model of `std::to_string` on a 64-bit integer. -/
def intToString (n : Int) : String :=
  if n < 0 then "-" ++ natToString n.natAbs else natToString n.natAbs

/-- Model of the standard library's floating-point extraction
(`std::istringstream iss(s); iss >> floating;` followed by
`iss.eof() && !iss.fail()`): the whole string must be an optionally signed
decimal literal — digits with an optional fraction part or a bare fraction
part — with an optional decimal exponent.  The value is modelled as the
exact rational the literal denotes (see the module comment). -/
def parseFloatQ (s : String) : Option ℚ :=
  let (sgn, r0) : Int × List Char :=
    match s.data with
    | '+' :: r => (1, r)
    | '-' :: r => (-1, r)
    | r => (1, r)
  let ipart := r0.takeWhile (fun c => isDigit c)
  let r1 := r0.drop ipart.length
  let (hasDot, fpart, r2) : Bool × List Char × List Char :=
    match r1 with
    | '.' :: r =>
        let f := r.takeWhile (fun c => isDigit c)
        (true, f, r.drop f.length)
    | _ => (false, [], r1)
  if ipart = [] ∧ fpart = [] then none
  else if ¬ hasDot ∧ ipart = [] then none
  else
    let mant : Nat := (ipart ++ fpart).foldl (fun a c => a * 10 + digitVal c) 0
    let scale : Nat := fpart.length
    let expOpt : Option Int :=
      match r2 with
      | [] => some 0
      | 'e' :: r => expDigits r
      | 'E' :: r => expDigits r
      | _ => none
    match expOpt with
    | none => none
    | some ex =>
        let e2 : Int := ex - (scale : Int)
        if 0 ≤ e2 then some (mkRat (sgn * (mant : Int) * 10 ^ e2.toNat) 1)
        else some (mkRat (sgn * (mant : Int)) (10 ^ (-e2).toNat))
where
  /-- Exponent part after `e`/`E`: optionally signed nonempty digits. -/
  expDigits (l : List Char) : Option Int :=
    let (es, ed) : Int × List Char :=
      match l with
      | '+' :: r => (1, r)
      | '-' :: r => (-1, r)
      | r => (1, r)
    match decDigits? ed with
    | none => none
    | some n => some (es * (n : Int))

/-- Round `a / b` (`b > 0`) to the nearest integer, ties to even (the
rounding used by `printf`-style formatting). -/
def roundDivEven (a b : Int) : Int :=
  let qf := a.fdiv b
  let r := a - qf * b
  if 2 * r < b then qf
  else if b < 2 * r then qf + 1
  else if qf % 2 = 0 then qf else qf + 1

/-- Model of `std::to_string` on a floating-point value: `"%f"` formatting,
i.e. the value rounded to six fractional digits. -/
def floatFmtQ (q : ℚ) : String :=
  let n : Int := roundDivEven (q.num * 1000000) (q.den : Int)
  let sign := if n < 0 then "-" else ""
  let m := n.natAbs
  let ip := m / 1000000
  let fp := m % 1000000
  let fs := natToString fp
  let pad := String.mk (List.replicate (6 - fs.length) '0')
  sign ++ natToString ip ++ "." ++ pad ++ fs

/-- Embeds `CLILexer::readIdentifier`'s loop: greedily consume letters, digits and
underscores.  The structural `fuel` only bounds the iteration count; the
wrappers below pass one more than the unconsumed input length, which the
loop can never exhaust since every iteration consumes a character. -/
def readIdentifierLoop : Nat → HookState → String → Int →
    String × Int × HookState
  | 0, s, value, e => (value, e, s)
  | fuel + 1, s, value, e =>
      let c := hookPeek s
      if isAlpha c || isDigit c || c = '_' then
        match hookGet s with
        | some (c2, s2) => readIdentifierLoop fuel s2 (value.push c2) (e + 1)
        | none => (value, e, s)
      else (value, e, s)

/-- Embeds `CLILexer::readIdentifier`. -/
def readIdentifier (s : HookState) : CLIToken × HookState :=
  let b := s.streamPos
  let r := readIdentifierLoop (s.input.length + 1) s "" b
  (⟨.Identifier, r.1, b, r.2.1⟩, r.2.2)

/-- Embeds `CLILexer::readString`'s loop.  `escape` is the escape flag; a failed
`get` (stream exhausted) leaves the loop.  Fuel as in
`readIdentifierLoop`. -/
def readStringLoop : Nat → HookState → String → Int → Bool →
    String × Int × HookState
  | 0, s, value, e, _ => (value, e, s)
  | fuel + 1, s, value, e, escape =>
      match hookGet s with
      | none => (value, e, s)
      | some (c, s2) =>
          if escape then
            if c = '\r' then readStringLoop fuel s2 value (e + 1) true
            else if c = '\n' then readStringLoop fuel s2 value (e + 1) false
            else readStringLoop fuel s2 (value.push c) (e + 1) false
          else if c = '\\' then readStringLoop fuel s2 value (e + 1) true
          else if c = '"' then (value, e + 1, s2)
          else readStringLoop fuel s2 (value.push c) (e + 1) false

/-- Embeds `CLILexer::readString`; entered with the opening quote already
consumed, so the token's `begin` is one before the entry position. -/
def readString (s : HookState) : CLIToken × HookState :=
  let b := s.streamPos
  let r := readStringLoop (s.input.length + 1) s "" b false
  (⟨.String, r.1, b - 1, r.2.1⟩, r.2.2)

/-- The character class consumed greedily by `CLILexer::readNumber`. -/
def numChar (c : Char) : Bool :=
  isDigit c || isAlpha c || c = '_' || c = '.' || c = '-' || c = '+'

/-- Embeds `CLILexer::readNumber`'s loop (`while ((c = stream_.peek()))` exits on a
NUL character, otherwise consumes while the character is in `numChar`).
Fuel as in `readIdentifierLoop`. -/
def readNumberLoop : Nat → HookState → String → Int →
    String × Int × HookState
  | 0, s, value, e => (value, e, s)
  | fuel + 1, s, value, e =>
      let c := hookPeek s
      if c = Char.ofNat 0 then (value, e, s)
      else if numChar c then
        match hookGet s with
        | some (c2, s2) => readNumberLoop fuel s2 (value.push c2) (e + 1)
        | none => (value, e, s)
      else (value, e, s)

/-- The `f`/`F` suffix test in `CLILexer::readNumber`
(`value.length() > 0 && (value.back() == 'f' || value.back() == 'F')`). -/
def hasSufF (v : String) : Bool :=
  v.length > 0 && (v.back = 'f' || v.back = 'F')

/-- The suffix-stripped candidate handed to the numeric parses in
`CLILexer::readNumber`. -/
def stripSufF (v : String) : String :=
  if hasSufF v then v.dropRight 1 else v

/-- Embeds `CLILexer::readNumber`, generic in the library's floating-point parse
and format routines (`F` stands for the machine `float`). -/
def readNumberG {F : Type} (fparse : String → Option F) (ffmt : F → String)
    (s : HookState) : CLIToken × HookState :=
  let b := s.streamPos
  let r := readNumberLoop (s.input.length + 1) s "" b
  let value := r.1
  let e := r.2.1
  let s' := r.2.2
  match parseInt64 (stripSufF value) with
  | some n =>
      if hasSufF value then (⟨.Unknown, value, b, e⟩, s')
      else (⟨.Integer, intToString n, b, e⟩, s')
  | none =>
      match fparse (stripSufF value) with
      | some x => (⟨.Float, ffmt x, b, e⟩, s')
      | none => (⟨.Unknown, value, b, e⟩, s')

/-- Embeds `CLILexer::readNumber` with the rational model of the library float
routines plugged in (the instance used by the full pipeline). -/
def readNumberQ (s : HookState) : CLIToken × HookState :=
  readNumberG parseFloatQ floatFmtQ s

/-- Embeds `CLILexer::readComment`'s loop, embedded verbatim with fuel: the C++
loop never tests for end of input (`stream_.get(c)`'s result is ignored),
so after a failed `get` it keeps appending the eof marker left in `c` by
`peek`.  `none` means the fuel ran out, i.e. the loop diverges. -/
def readCommentLoopF : Nat → HookState → String → Int →
    Option (String × Int × HookState)
  | 0, _, _, _ => none
  | fuel + 1, s, value, e =>
      let c := hookPeek s
      if c = '\n' then some (value, e, s)
      else
        match hookGet s with
        | some (c2, s2) => readCommentLoopF fuel s2 (value.push c2) (e + 1)
        | none => readCommentLoopF fuel s (value.push c) (e + 1)

/-- The terminating executions of `CLILexer::readComment`'s loop: consume up
to the next newline; if the input runs out first the C++ loop diverges,
modelled by `none`.  `readCommentLoopF_eq_readCommentTLoop` below proves
this agrees with the verbatim fueled embedding `readCommentLoopF`.  Fuel as
in `readIdentifierLoop`. -/
def readCommentTLoop : Nat → HookState → String → Int →
    Option (String × Int × HookState)
  | 0, _, _, _ => none
  | fuel + 1, s, value, e =>
      match s.input with
      | [] => none
      | c :: _ =>
          if c = '\n' then some (value, e, s)
          else
            match hookGet s with
            | some (c2, s2) => readCommentTLoop fuel s2 (value.push c2) (e + 1)
            | none => none

/-- Embeds `CLILexer::readComment` (terminating executions). -/
def readCommentT (s : HookState) : Option (CLIToken × HookState) :=
  (readCommentTLoop (s.input.length + 1) s "" s.streamPos).map
    (fun r => (⟨.Comment, r.1, s.streamPos, r.2.1⟩, r.2.2))

def lparenChar : Char := Char.ofNat 40

def rparenChar : Char := Char.ofNat 41

def lbrackChar : Char := Char.ofNat 91

def rbrackChar : Char := Char.ofNat 93

def lcurlyChar : Char := Char.ofNat 123

def rcurlyChar : Char := Char.ofNat 125

/-- Embeds `CLILexer::readNextToken`.  The C++ `get`-then-`unget` prefix of
`readIdentifier`/`readNumber`/`readComment` restores the hook state exactly
(`hookUnget_hookGet`), so those readers are entered on the state before the
`get`.  `none` models divergence (only possible through `readComment`).
The structural fuel (as in `readIdentifierLoop`) only drives the
whitespace-skipping iteration. -/
def readNextTokenF : Nat → HookState → Option (CLIToken × HookState)
  | 0, _ => none
  | fuel + 1, s =>
      match hookGet s with
      | none => some (⟨.EndOfFile, "", s.streamPos, s.streamPos⟩, s)
      | some (c, s1) =>
          let b := s1.streamPos - 1
          if isAlpha c || c = '_' then some (readIdentifier s)
          else if c = '"' then some (readString s1)
          else if isDigit c || c = '-' || c = '+' || c = '.' then
            some (readNumberQ s)
          else if c = lparenChar then some (⟨.LeftParen, "(", b, b + 1⟩, s1)
          else if c = rparenChar then some (⟨.RightParen, ")", b, b + 1⟩, s1)
          else if c = lbrackChar then some (⟨.LeftBracket, "[", b, b + 1⟩, s1)
          else if c = rbrackChar then some (⟨.RightBracket, "]", b, b + 1⟩, s1)
          else if c = lcurlyChar then some (⟨.LeftCurly, "\x7b", b, b + 1⟩, s1)
          else if c = rcurlyChar then some (⟨.RightCurly, "\x7d", b, b + 1⟩, s1)
          else if c = ',' then some (⟨.Comma, ",", b, b + 1⟩, s1)
          else if c = '\n' then some (⟨.EndOfLine, "\n", b, b + 1⟩, s1)
          else if c = '#' then readCommentT s
          else if c = ' ' || c = '\t' || c = '\r' then readNextTokenF fuel s1
          else some (⟨.Unknown, String.mk [c], b, b + 1⟩, s1)

/-- Embeds `CLILexer::readNextToken`. -/
def readNextToken (s : HookState) : Option (CLIToken × HookState) :=
  readNextTokenF (s.input.length + 1) s

/-- Embeds `CLILexer` state: the hook plus the one-token lookahead cache
(`peeked_token_`). -/
structure LexState where
  hook : HookState
  peeked : Option CLIToken
deriving DecidableEq, Repr

/-- Embeds `CLILexer::nextToken`. -/
def nextTokenL (ls : LexState) : Option (CLIToken × LexState) :=
  match ls.peeked with
  | some t => some (t, ⟨ls.hook, none⟩)
  | none =>
      match readNextToken ls.hook with
      | some (t, h) => some (t, ⟨h, none⟩)
      | none => none

/-- Embeds `CLILexer::peekToken`. -/
def peekTokenL (ls : LexState) : Option (CLIToken × LexState) :=
  match ls.peeked with
  | some t => some (t, ls)
  | none =>
      match readNextToken ls.hook with
      | some (t, h) => some (t, ⟨h, some t⟩)
      | none => none

/-- Embeds `CLILexer::hasMoreTokens`: the peeked character is not the eof marker. -/
def hasMoreTokens (s : HookState) : Bool := hookPeek s ≠ eofChar

/-- Embeds `Argument` from `CLIParser.hpp` (tag plus variant payload, as a sum). -/
inductive Argument where
  | identifier (value : String)
  | str (value : String)
  | integer (value : Int)
  | float (value : ℚ)
  | integerVector (value : List Int)
  | floatVector (value : List ℚ)
deriving DecidableEq, Repr

/-- Embeds `Command` from `CLIParser.hpp`. -/
structure Command where
  name : String
  arguments : List Argument
deriving DecidableEq, Repr

/-- The structured data handed to the `ErrorReporter` entry point at each
`throw` site of the parser (one constructor per reporter overload; the
report string is a function of these).  `internal` stands for the
defensive `std::runtime_error("No way to reach here ...")` throws. -/
inductive ParseErr where
  | unexpectedToken (expected : TokenType) (actual : CLIToken)
  | unexpectedTokenStr (expected : String) (actual : CLIToken)
  | unexpectedTokenNoExp (actual : CLIToken)
  | mismatchedToken (actual : CLIToken)
  | unknownToken (actual : CLIToken)
  | internal
deriving DecidableEq, Repr

/-- Outcome of a parsing routine over lexer state `σ`: normal return,
raised diagnostic (the thrown error plus the lexer state at the throw,
since the stream side effects persist), or fuel exhaustion (`out`), which
models divergence. -/
inductive PR (σ : Type) (α : Type) where
  | ok : α → σ → PR σ α
  | err : ParseErr → σ → PR σ α
  | out : PR σ α
deriving DecidableEq, Repr

/-- The lexer interface the parser consumes (`peekToken` / `nextToken`,
plus the hook's `clearConsumedTokens` reached through `stream_hook_`).
`none` from a token routine models divergence inside the lexer. -/
structure LexerI (σ : Type) where
  peekT : σ → Option (CLIToken × σ)
  nextT : σ → Option (CLIToken × σ)
  clearC : σ → σ

/-- Model of `std::stoll`: optionally signed leading decimal digits (only
ever applied to the lexer's canonical integer token values). -/
def stollM (s : String) : Int :=
  let (sgn, ds) : Int × List Char :=
    match s.data with
    | '+' :: r => (1, r)
    | '-' :: r => (-1, r)
    | r => (1, r)
  sgn * ((ds.takeWhile (fun c => isDigit c)).foldl
    (fun a c => a * 10 + digitVal c) 0 : Nat)

/-- Model of `std::stod` (only ever applied to the lexer's canonical float
token values, which `parseFloatQ` always accepts). -/
def stodQ (s : String) : ℚ := (parseFloatQ s).getD 0

/-- Model of `static_cast<double>` on a 64-bit integer (exact; the C++
conversion rounds beyond 2^53, which no input here reaches). -/
def i64ToDouble (n : Int) : ℚ := mkRat n 1

/-- Model of `static_cast<int64_t>` on a double: truncation toward zero. -/
def truncQ (q : ℚ) : Int := q.num.tdiv (q.den : Int)

/-- The `parseIntegerVector` lambda in `CLIParser::parseNumberList`. -/
def parseIntegerVector (toks : List CLIToken) : Argument :=
  .integerVector (toks.map (fun t =>
    if t.type = .Integer then stollM t.value else truncQ (stodQ t.value)))

/-- The `parseFloatVector` lambda in `CLIParser::parseNumberList`. -/
def parseFloatVector (toks : List CLIToken) : Argument :=
  .floatVector (toks.map (fun t =>
    if t.type = .Integer then i64ToDouble (stollM t.value) else stodQ t.value))

/-- The `integer_vector ? parseIntegerVector() : parseFloatVector()`
dispatch at every return of `CLIParser::parseNumberList`. -/
def finalizeVec (intv : Bool) (toks : List CLIToken) : Argument :=
  if intv then parseIntegerVector toks else parseFloatVector toks

/-- Embeds `CLIParser::parseNumberList`'s loop.  The booleans are the locals
`comma` (a separator was just seen, so a number is expected),
`first_number` and `integer_vector`; `toks` is the collected `tokens`. -/
def parseNumberListLoop {σ : Type} (L : LexerI σ) :
    Nat → Bool → Bool → List CLIToken → Bool → σ → PR σ Argument
  | 0, _, _, _, _, _ => .out
  | fuel + 1, comma, first, toks, intv, s =>
      match L.peekT s with
      | none => .out
      | some (tok, s1) =>
          match tok.type with
          | .Integer =>
              if ¬ comma then
                if toks.length = 1 then
                  match L.nextT s1 with
                  | some (t2, s2) => .err (.unexpectedToken .Comma t2) s2
                  | none => .out
                else .ok (finalizeVec intv toks) s1
              else
                match L.nextT s1 with
                | some (t2, s2) =>
                    parseNumberListLoop L fuel false false (toks ++ [t2]) intv s2
                | none => .out
          | .Float =>
              if ¬ comma then
                if toks.length = 1 then
                  match L.nextT s1 with
                  | some (t2, s2) => .err (.unexpectedToken .Comma t2) s2
                  | none => .out
                else .ok (finalizeVec intv toks) s1
              else
                match L.nextT s1 with
                | some (t2, s2) =>
                    parseNumberListLoop L fuel false false (toks ++ [t2]) false s2
                | none => .out
          | .Comma =>
              if comma then
                match L.nextT s1 with
                | some (t2, s2) => .err (.unexpectedTokenStr "number" t2) s2
                | none => .out
              else
                match L.nextT s1 with
                | some (_, s2) => parseNumberListLoop L fuel true first toks intv s2
                | none => .out
          | _ =>
              if first then
                match L.nextT s1 with
                | some (t2, s2) => .err (.unexpectedTokenStr "number" t2) s2
                | none => .out
              else if comma then
                match L.nextT s1 with
                | some (t2, s2) => .err (.unexpectedTokenStr "number" t2) s2
                | none => .out
              else .ok (finalizeVec intv toks) s1

/-- Embeds `CLIParser::parseNumberList` (fresh locals: `comma = true`,
`first_number = true`, empty `tokens`, `integer_vector = true`). -/
def parseNumberList {σ : Type} (L : LexerI σ) (fuel : Nat) (s : σ) :
    PR σ Argument :=
  parseNumberListLoop L fuel true true [] true s

/-- Embeds `CLIParser::parseVector`. -/
def parseVector {σ : Type} (L : LexerI σ) (fuel : Nat) (s : σ) :
    PR σ Argument :=
  match L.peekT s with
  | none => .out
  | some (tok, s1) =>
      match tok.type with
      | .Integer => parseNumberList L fuel s1
      | .Float => parseNumberList L fuel s1
      | .LeftParen =>
          match L.nextT s1 with
          | none => .out
          | some (_, s2) =>
              match parseNumberList L fuel s2 with
              | .ok a s3 =>
                  match L.nextT s3 with
                  | none => .out
                  | some (t4, s4) =>
                      if t4.type = .RightParen then .ok a s4
                      else .err (.unexpectedToken .RightParen t4) s4
              | r => r
      | .LeftBracket =>
          match L.nextT s1 with
          | none => .out
          | some (_, s2) =>
              match parseNumberList L fuel s2 with
              | .ok a s3 =>
                  match L.nextT s3 with
                  | none => .out
                  | some (t4, s4) =>
                      if t4.type = .RightBracket then .ok a s4
                      else .err (.unexpectedToken .RightBracket t4) s4
              | r => r
      | _ => .err .internal s1

/-- Embeds `CLIParser::parseArgument`. -/
def parseArgument {σ : Type} (L : LexerI σ) (fuel : Nat) (s : σ) :
    PR σ Argument :=
  match L.peekT s with
  | none => .out
  | some (tok, s1) =>
      match tok.type with
      | .Identifier =>
          match L.nextT s1 with
          | some (t, s2) => .ok (.identifier t.value) s2
          | none => .out
      | .String =>
          match L.nextT s1 with
          | some (t, s2) => .ok (.str t.value) s2
          | none => .out
      | .Integer =>
          match L.nextT s1 with
          | none => .out
          | some (t, s2) =>
              match L.peekT s2 with
              | none => .out
              | some (t3, s3) =>
                  if t3.type = .Comma then
                    match L.nextT s3 with
                    | none => .out
                    | some (_, s4) =>
                        match parseNumberList L fuel s4 with
                        | .ok (.integerVector xs) s5 =>
                            .ok (.integerVector (stollM t.value :: xs)) s5
                        | .ok (.floatVector xs) s5 =>
                            .ok (.floatVector (i64ToDouble (stollM t.value) :: xs)) s5
                        | .ok _ s5 => .err .internal s5
                        | r => r
                  else .ok (.integer (stollM t.value)) s3
      | .Float =>
          match L.nextT s1 with
          | none => .out
          | some (t, s2) =>
              match L.peekT s2 with
              | none => .out
              | some (t3, s3) =>
                  if t3.type = .Comma then
                    match L.nextT s3 with
                    | none => .out
                    | some (_, s4) =>
                        match parseNumberList L fuel s4 with
                        | .ok (.floatVector xs) s5 =>
                            .ok (.floatVector (stodQ t.value :: xs)) s5
                        | .ok (.integerVector xs) s5 =>
                            .ok (.floatVector
                              (stodQ t.value :: xs.map (fun n => i64ToDouble n))) s5
                        | .ok _ s5 => .err .internal s5
                        | r => r
                  else .ok (.float (stodQ t.value)) s3
      | .LeftParen => parseVector L fuel s1
      | .LeftBracket => parseVector L fuel s1
      | .RightParen =>
          match L.nextT s1 with
          | some (t, s2) => .err (.unexpectedTokenNoExp t) s2
          | none => .out
      | .RightBracket =>
          match L.nextT s1 with
          | some (t, s2) => .err (.unexpectedTokenNoExp t) s2
          | none => .out
      | _ => .err .internal s1

/-- Embeds `CLIParser::parseArgumentList`'s loop (`multiline` is the open-curly
flag, `args` the accumulated `arguments`). -/
def parseArgumentListLoop {σ : Type} (L : LexerI σ) :
    Nat → Bool → List Argument → σ → PR σ (List Argument)
  | 0, _, _, _ => .out
  | fuel + 1, multiline, args, s =>
      match L.peekT s with
      | none => .out
      | some (tok, s1) =>
          match tok.type with
          | .Identifier | .String | .Integer | .Float
          | .LeftParen | .RightParen | .LeftBracket | .RightBracket =>
              match parseArgument L fuel s1 with
              | .ok a s2 => parseArgumentListLoop L fuel multiline (args ++ [a]) s2
              | .err e s2 => .err e s2
              | .out => .out
          | .LeftCurly =>
              if multiline then
                match L.nextT s1 with
                | some (t2, s2) => .err (.mismatchedToken t2) s2
                | none => .out
              else
                match L.nextT s1 with
                | some (_, s2) => parseArgumentListLoop L fuel true args s2
                | none => .out
          | .RightCurly =>
              if ¬ multiline then
                match L.nextT s1 with
                | some (t2, s2) => .err (.mismatchedToken t2) s2
                | none => .out
              else
                match L.nextT s1 with
                | some (_, s2) => parseArgumentListLoop L fuel false args s2
                | none => .out
          | .Comma =>
              match L.nextT s1 with
              | some (t2, s2) => .err (.unexpectedTokenNoExp t2) s2
              | none => .out
          | .EndOfLine =>
              match L.nextT s1 with
              | some (_, s2) =>
                  if ¬ multiline then .ok args s2
                  else parseArgumentListLoop L fuel multiline args s2
              | none => .out
          | .Comment =>
              match L.nextT s1 with
              | some (_, s2) => parseArgumentListLoop L fuel multiline args s2
              | none => .out
          | .EndOfFile =>
              if multiline then
                match L.nextT s1 with
                | some (t2, s2) => .err (.unexpectedToken .RightCurly t2) s2
                | none => .out
              else .ok args s1
          | .Unknown =>
              match L.nextT s1 with
              | some (t2, s2) => .err (.unknownToken t2) s2
              | none => .out

/-- Embeds `CLIParser::parseArgumentList`. -/
def parseArgumentList {σ : Type} (L : LexerI σ) (fuel : Nat) (s : σ) :
    PR σ (List Argument) :=
  parseArgumentListLoop L fuel false [] s

/-- Embeds `CLIParser::parseCommand`'s loop (`name` is `command.name`; the
argument vector is only filled on the returning branches). -/
def parseCommandLoop {σ : Type} (L : LexerI σ) :
    Nat → String → σ → PR σ Command
  | 0, _, _ => .out
  | fuel + 1, name, s =>
      match L.peekT s with
      | none => .out
      | some (tok, s1) =>
          match tok.type with
          | .Identifier =>
              if name = "" then
                match L.nextT s1 with
                | some (t, s2) => parseCommandLoop L fuel t.value s2
                | none => .out
              else
                match parseArgumentList L fuel s1 with
                | .ok args s2 => .ok ⟨name, args⟩ (L.clearC s2)
                | .err e s2 => .err e s2
                | .out => .out
          | .String | .Integer | .Float | .LeftParen | .RightParen
          | .LeftBracket | .RightBracket | .LeftCurly | .RightCurly
          | .Comma =>
              if name = "" then
                match L.nextT s1 with
                | some (t, s2) => .err (.unexpectedToken .Identifier t) s2
                | none => .out
              else
                match parseArgumentList L fuel s1 with
                | .ok args s2 => .ok ⟨name, args⟩ (L.clearC s2)
                | .err e s2 => .err e s2
                | .out => .out
          | .EndOfLine =>
              if name = "" then
                match L.nextT s1 with
                | some (_, s2) => parseCommandLoop L fuel name (L.clearC s2)
                | none => .out
              else
                match parseArgumentList L fuel s1 with
                | .ok args s2 => .ok ⟨name, args⟩ (L.clearC s2)
                | .err e s2 => .err e s2
                | .out => .out
          | .Comment =>
              match L.nextT s1 with
              | some (_, s2) => parseCommandLoop L fuel name s2
              | none => .out
          | .EndOfFile => .ok ⟨name, []⟩ (L.clearC s1)
          | .Unknown =>
              match L.nextT s1 with
              | some (t, s2) => .err (.unknownToken t) s2
              | none => .out

/-- Embeds `CLIParser::parseCommand` (fresh `Command`: empty name). -/
def parseCommand {σ : Type} (L : LexerI σ) (fuel : Nat) (s : σ) :
    PR σ Command :=
  parseCommandLoop L fuel "" s

/-- The `EndOfFile` token the real lexer keeps producing once the token
stream is exhausted (positions are irrelevant at the token level). -/
def eofTok : CLIToken := ⟨.EndOfFile, "", 0, 0⟩

/-- Token-level lexer: the parser fed directly from a list of tokens
(peeking caches nothing observable; past the end the lexer yields
`EndOfFile` forever, as the real one does). -/
def listLexer : LexerI (List CLIToken) where
  peekT := fun ts => some (ts.headD eofTok, ts)
  nextT := fun ts => some (ts.headD eofTok, ts.tail)
  clearC := id

/-- Character-level lexer: the real `CLILexer` over the stream hook. -/
def charLexer : LexerI LexState where
  peekT := peekTokenL
  nextT := nextTokenL
  clearC := fun ls => ⟨clearHook ls.hook, ls.peeked⟩

/-- A fresh parsing session over the characters of `input`. -/
def initState (input : String) : LexState := ⟨hookInit input, none⟩

/-- Drive `CLIParser::parseCommand` once on a fresh session. -/
def parseCommandStr (fuel : Nat) (input : String) : PR LexState Command :=
  parseCommand charLexer fuel (initState input)

/-- Projection: the command of a normal return. -/
def prOk? {σ α : Type} : PR σ α → Option α
  | .ok a _ => some a
  | _ => none

/-- Projection: the diagnostic of an error return. -/
def prErr? {σ α : Type} : PR σ α → Option ParseErr
  | .err e _ => some e
  | _ => none

/-- Projection: the diagnostic of an error return together with the hook's
buffer and checkpoint data at the throw site. -/
def errHookData? {α : Type} : PR LexState α →
    Option (ParseErr × List Char × Int × Int)
  | .err e ls => some (e, ls.hook.consumed, ls.hook.pos, ls.hook.streamPos)
  | _ => none

def ansiRed : String := "\x1b[31m"

def ansiReset : String := "\x1b[0m"

/-- The loop of `ErrorReporter::colorString`: wrap each newline-separated
segment in the color escape and its reset (a trailing newline's empty last
segment contributes nothing, as in the C++ loop). -/
def colorLoop (color : String) : List Char → String
  | [] => ""
  | l =>
      let seg := l.takeWhile (fun c => c ≠ '\n')
      match hr : l.dropWhile (fun c => c ≠ '\n') with
      | [] => color ++ String.mk seg ++ ansiReset
      | _ :: rtail =>
          color ++ String.mk seg ++ ansiReset ++ "\n" ++ colorLoop color rtail
termination_by l => l.length
decreasing_by
  have hs : (l.dropWhile (fun c => c ≠ '\n')).length ≤ l.length :=
    (List.dropWhile_sublist _).length_le
  rw [hr] at hs
  simp at hs
  omega

/-- Embeds `ErrorReporter::colorString`. -/
def colorString (str color : String) : String := colorLoop color str.data

/-- Embeds `ErrorReporter::addPrefix` (renamed): repeat the gutter string after
every newline. -/
def addGutterAux (g : List Char) : List Char → List Char
  | [] => []
  | c :: r =>
      if c = '\n' then '\n' :: (g ++ addGutterAux g r)
      else c :: addGutterAux g r

/-- Embeds `ErrorReporter::addPrefix` (renamed to `addGutter`). -/
def addGutter (g str : String) : String := String.mk (addGutterAux g.data str.data)

/-- The highlight sub-range computed inside
`ErrorReporter::getSourceSnippetReport`: the caller passes the offending
token's `[begin, end]` treated as inclusive on both sides (the C++ comment),
hence the `+ 1`, and both bounds are clamped to the recorded buffer. -/
def highlightRange (b e srcPos : Int) (size : Nat) : Int × Int :=
  (max (b - srcPos) 0, min (e - srcPos + 1) (size : Int))

/-- Embeds `ErrorReporter::getSourceSnippetReport`.  `source` is the hook's
recorded buffer, `srcPos`/`lineNo` the checkpoint coordinates, `b`/`e` the
reported token span. -/
def getSourceSnippetReport (source : String) (srcPos lineNo b e : Int) :
    String :=
  let hb := (highlightRange b e srcPos source.length).1
  let he := (highlightRange b e srcPos source.length).2
  if hb > he then ""
  else
    let cs := source.data
    let report :=
      String.mk (cs.take hb.toNat) ++
      colorString (String.mk ((cs.drop hb.toNat).take (he - hb).toNat)) ansiRed ++
      String.mk (cs.drop he.toNat)
    let lineStr := "  " ++ intToString lineNo ++ " "
    let pad := String.mk (List.replicate lineStr.length ' ')
    lineStr ++ "| " ++ addGutter (pad ++ "| ") report

/-!  Claim-side (specification) definitions, written from the spec's words,
to be compared with the embedded code above. -/

/-- Specification of the string lexer's behavior on the characters after
the opening quote: the produced value and the unconsumed rest.  Consume
until an unescaped quote; backslash escapes the next character; an escaped
carriage return contributes nothing (and the escape continues to the next
character, so that a backslash–CRLF line continuation also contributes
nothing); an escaped newline contributes nothing; any other escaped
character contributes itself. -/
def specStringRun : Bool → List Char → String × List Char
  | _, [] => ("", [])
  | false, c :: rest =>
      if c = '\\' then specStringRun true rest
      else if c = '"' then ("", rest)
      else
        let r := specStringRun false rest
        (c.toString ++ r.1, r.2)
  | true, c :: rest =>
      if c = '\r' then specStringRun true rest
      else if c = '\n' then specStringRun false rest
      else
        let r := specStringRun false rest
        (c.toString ++ r.1, r.2)

/-- Specification of the string value produced from the characters after
the opening quote. -/
def specStringValue (cs : List Char) : String := (specStringRun false cs).1

/-- The characters after an opening quote contain no unescaped closing
quote (so the literal is unterminated and runs to end of input). -/
def unterminated : Bool → List Char → Bool
  | _, [] => true
  | false, c :: rest =>
      if c = '\\' then unterminated true rest
      else if c = '"' then false
      else unterminated false rest
  | true, c :: rest =>
      if c = '\r' then unterminated true rest
      else unterminated false rest

/-- The token is a number token. -/
def numTok (t : CLIToken) : Prop := t.type = .Integer ∨ t.type = .Float

/-- The token list begins with a token that ends a number list without
consuming it (neither a number, which would engage the juxtaposition rule,
nor a comma); an empty list qualifies since the lexer then yields
`EndOfFile`. -/
def listEnder : List CLIToken → Prop
  | [] => True
  | t :: _ => t.type ≠ .Integer ∧ t.type ≠ .Float ∧ t.type ≠ .Comma

/-- Embeds `CommaSep nums rest ts`: `ts` is the token stream consisting of the
number tokens `nums` separated by single comma tokens, followed by `rest`,
which does not continue the list. -/
inductive CommaSep : List CLIToken → List CLIToken → List CLIToken → Prop where
  | last (t : CLIToken) (rest : List CLIToken) :
      numTok t → listEnder rest → CommaSep [t] rest (t :: rest)
  | cons (t c : CLIToken) (nums rest ts : List CLIToken) :
      numTok t → c.type = .Comma → CommaSep nums rest ts →
      CommaSep (t :: nums) rest (t :: c :: ts)

/-- Specification of the vector argument produced from a comma-separated
list of number tokens (the promotion rule as the spec states it): an
integer vector of the parsed integers unless some element was lexed as a
float, in which case a float vector in which every integer element is
converted to its floating-point value. -/
def specNumberArg (nums : List CLIToken) : Argument :=
  if nums.all (fun t => t.type = .Integer) then
    .integerVector (nums.map (fun t => stollM t.value))
  else
    .floatVector (nums.map (fun t =>
      if t.type = .Integer then i64ToDouble (stollM t.value) else stodQ t.value))

/-!  Theorems. -/

/-- Undoing a successful `get` restores the hook state exactly; this
justifies entering `readIdentifier`/`readNumber`/`readComment` on the
pre-`get` state where the C++ `readNextToken` performs `get` then `unget`. -/
theorem hookUnget_hookGet {s : HookState} {c : Char} {s' : HookState}
    (h : hookGet s = some (c, s')) : hookUnget s' = s := by
  unfold hookGet at h
  cases hi : s.input with
  | nil => rw [hi] at h; exact absurd h (by simp)
  | cons a rest =>
      rw [hi] at h
      simp only [Option.some.injEq, Prod.mk.injEq] at h
      obtain ⟨h1, h2⟩ := h
      subst h1
      rw [← h2]
      unfold hookUnget
      simp only [List.getLast?_append, List.getLast?_singleton]
      cases s
      simp_all [List.dropLast_append_of_ne_nil]

/-- The verbatim fueled embedding of `CLILexer::readComment`'s loop never
returns when the unconsumed input holds no newline: `peek` keeps producing
the eof marker, the failed `get` is ignored, and the loop spins. -/
theorem readCommentLoopF_no_newline :
    ∀ (fuel : Nat) (s : HookState) (v : String) (e : Int),
      ¬ '\n' ∈ s.input → readCommentLoopF fuel s v e = none := by
  intro fuel
  induction fuel with
  | zero => intro s v e _; rfl
  | succ n ih =>
      intro s v e hn
      simp only [readCommentLoopF]
      cases hi : s.input with
      | nil =>
          have hpk : hookPeek s = eofChar := by unfold hookPeek; rw [hi]
          have hg : hookGet s = none := by unfold hookGet; rw [hi]
          rw [hpk, hg]
          rw [if_neg (by decide : ¬ (eofChar = '\n'))]
          exact ih s _ _ hn
      | cons c r =>
          have hcn : c ≠ '\n' := by
            rw [hi] at hn
            simp only [List.mem_cons] at hn
            exact fun h => hn (Or.inl h.symm)
          have hpk : hookPeek s = c := by unfold hookPeek; rw [hi]
          have hg : hookGet s = some (c, ⟨r, s.streamPos + 1, s.consumed ++ [c], s.pos,
              s.lineNo, if c = '\n' then s.curLineNo + 1 else s.curLineNo⟩) := by
            unfold hookGet; rw [hi]
          rw [hpk, if_neg hcn, hg]
          apply ih
          rw [hi] at hn
          simp at hn
          exact hn.2

/-- On any input the verbatim fueled comment loop agrees with its
terminating description `readCommentTLoop` once both fuels exceed the
unconsumed input (both report divergence as `none` when no newline
follows). -/
theorem readCommentLoopF_eq_readCommentTLoop :
    ∀ (cs : List Char) (s : HookState) (v : String) (e : Int)
      (fuelF fuelT : Nat),
      s.input = cs → cs.length + 1 ≤ fuelF → cs.length + 1 ≤ fuelT →
      readCommentLoopF fuelF s v e = readCommentTLoop fuelT s v e := by
  intro cs
  induction cs with
  | nil =>
      intro s v e fuelF fuelT hi _ hfT
      have : ¬ '\n' ∈ s.input := by rw [hi]; simp
      rw [readCommentLoopF_no_newline fuelF s v e this]
      obtain ⟨n, rfl⟩ : ∃ n, fuelT = n + 1 := by
        cases fuelT with
        | zero => simp at hfT
        | succ k => exact ⟨k, rfl⟩
      simp only [readCommentTLoop]
      rw [hi]
  | cons c r ih =>
      intro s v e fuelF fuelT hi hfF hfT
      obtain ⟨n, rfl⟩ : ∃ n, fuelF = n + 1 := by
        cases fuelF with
        | zero => simp at hfF
        | succ k => exact ⟨k, rfl⟩
      obtain ⟨m, rfl⟩ : ∃ m, fuelT = m + 1 := by
        cases fuelT with
        | zero => simp at hfT
        | succ k => exact ⟨k, rfl⟩
      have hpk : hookPeek s = c := by unfold hookPeek; rw [hi]
      have hg : hookGet s = some (c, ⟨r, s.streamPos + 1, s.consumed ++ [c], s.pos,
          s.lineNo, if c = '\n' then s.curLineNo + 1 else s.curLineNo⟩) := by
        unfold hookGet; rw [hi]
      simp only [readCommentLoopF, readCommentTLoop]
      rw [hi]
      by_cases hc : c = '\n'
      · rw [hpk, hg]
        simp [hc, hi]
      · rw [hpk, hg]
        simp only [hc, if_false, if_neg hc]
        exact ih _ _ _ _ _ rfl (by simpa using Nat.le_of_succ_le_succ hfF)
          (by simpa using Nat.le_of_succ_le_succ hfT)

/-- Claim C4 (code bug).  The spec states that reading a comment that
reaches end-of-input with no following newline terminates and returns the
comment text consumed so far.  The code does not: `readComment`'s loop
ignores the result of `stream_.get(c)`, so once the input is exhausted it
spins forever (first conjunct: the verbatim fueled loop returns for no
amount of fuel when no newline remains, e.g. on input `#abc` at end of
input).  A comment that is followed by a newline does terminate correctly
(last conjunct). -/
theorem C4_comment_eof_divergence :
    (∀ (fuel : Nat) (s : HookState) (v : String) (e : Int),
        ¬ '\n' ∈ s.input → readCommentLoopF fuel s v e = none)
    ∧ readNextToken (hookInit "#abc") = none
    ∧ (readNextToken (hookInit "#ab\nc")).map Prod.fst =
        some ⟨.Comment, "#ab", 0, 3⟩ :=
  ⟨fun fuel s v e h => readCommentLoopF_no_newline fuel s v e h,
   by decide, by decide⟩

/-- Witness for `C4_comment_eof_divergence` at the failing input `#abc`. -/
theorem C4_comment_eof_divergence_witness :
    (¬ '\n' ∈ (hookInit "#abc").input) ∧
      readCommentLoopF 10 (hookInit "#abc") "" 0 = none :=
  ⟨by decide, C4_comment_eof_divergence.1 10 (hookInit "#abc") "" 0 (by decide)⟩

/-- Claim C9: calling `parseCommand` when the input is exhausted returns
the sentinel `Command` with empty name and empty arguments without raising
any error (for any fuel, i.e. the call terminates); in particular on empty
input, so empty input never yields a command with a non-empty name. -/
theorem C9_eof_sentinel :
    (∀ (h : HookState) (fuel : Nat), h.input = [] →
        parseCommand charLexer (fuel + 1) ⟨h, none⟩ =
          .ok ⟨"", []⟩
            ⟨clearHook h, some ⟨.EndOfFile, "", h.streamPos, h.streamPos⟩⟩)
    ∧ prOk? (parseCommandStr 5 "") = some ⟨"", []⟩ := by
  constructor
  · intro h fuel hin
    simp [parseCommand, parseCommandLoop, charLexer, peekTokenL,
      readNextToken, readNextTokenF, hookGet, hin, clearHook]
  · decide

/-- Witness for `C9_eof_sentinel` on the empty input. -/
theorem C9_eof_sentinel_witness :
    (hookInit "").input = [] ∧
      parseCommand charLexer 5 ⟨hookInit "", none⟩ =
        .ok ⟨"", []⟩ ⟨clearHook (hookInit ""), some ⟨.EndOfFile, "", 0, 0⟩⟩ :=
  ⟨by decide, C9_eof_sentinel.1 (hookInit "") 4 (by decide)⟩

/-- Claim C8: during argument-list parsing a left curly while a block is
already open, or a right curly while none is open, raises a
`MismatchedToken` error carrying that token (conjuncts 1 and 2); an
`EndOfFile` token while a block is open raises an `UnexpectedToken` error
expecting the right curly (conjuncts 3 and 4, the latter for the exhausted
token stream); and `cmd }` raises `MismatchedToken` referencing the right
curly's span `[4, 5)` (last conjunct). -/
theorem C8_curly_block_errors :
    (∀ (fuel : Nat) (args : List Argument) (tok : CLIToken)
        (ts : List CLIToken), tok.type = .LeftCurly →
        parseArgumentListLoop listLexer (fuel + 1) true args (tok :: ts) =
          .err (.mismatchedToken tok) ts)
    ∧ (∀ (fuel : Nat) (args : List Argument) (tok : CLIToken)
        (ts : List CLIToken), tok.type = .RightCurly →
        parseArgumentListLoop listLexer (fuel + 1) false args (tok :: ts) =
          .err (.mismatchedToken tok) ts)
    ∧ (∀ (fuel : Nat) (args : List Argument) (tok : CLIToken)
        (ts : List CLIToken), tok.type = .EndOfFile →
        parseArgumentListLoop listLexer (fuel + 1) true args (tok :: ts) =
          .err (.unexpectedToken .RightCurly tok) ts)
    ∧ (∀ (fuel : Nat) (args : List Argument),
        parseArgumentListLoop listLexer (fuel + 1) true args [] =
          .err (.unexpectedToken .RightCurly eofTok) [])
    ∧ prErr? (parseCommandStr 100 "cmd \x7d\n") =
        some (.mismatchedToken ⟨.RightCurly, "\x7d", 4, 5⟩) := by
  refine ⟨?_, ?_, ?_, ?_, by decide⟩
  · intro fuel args tok ts ht
    simp [parseArgumentListLoop, listLexer, ht]
  · intro fuel args tok ts ht
    simp [parseArgumentListLoop, listLexer, ht]
  · intro fuel args tok ts ht
    simp [parseArgumentListLoop, listLexer, ht]
  · intro fuel args
    simp [parseArgumentListLoop, listLexer, eofTok]

/-- Witness for `C8_curly_block_errors`. -/
theorem C8_curly_block_errors_witness :
    parseArgumentListLoop listLexer 1 true []
        [⟨.LeftCurly, "\x7b", 0, 1⟩] =
      .err (.mismatchedToken ⟨.LeftCurly, "\x7b", 0, 1⟩) [] :=
  C8_curly_block_errors.1 0 [] ⟨.LeftCurly, "\x7b", 0, 1⟩ [] rfl

/-- Counterexample to claim C3 as stated: when `parseCommand` exits by a
raised error the consumed-character buffer is *not* cleared and the
checkpoint is *not* advanced.  On input `,` the parse raises (expected
identifier, got comma) and at the raise site the buffer still holds `,`
with the checkpoint at 0 while the stream position is 1. -/
theorem C3_counterexample :
    errHookData? (parseCommandStr 50 ",") =
      some (.unexpectedToken .Identifier ⟨.Comma, ",", 0, 1⟩, [','], 0, 1) := by
  decide

/-- Claim C3 (amended): on every exit of `parseCommand` by normal return
the consumed-character buffer has been cleared and the checkpoint advanced
to the current stream position and line; error exits leave the buffer
intact (see `C3_counterexample`). -/
theorem C3_clear_on_normal_return :
    ∀ (fuel : Nat) (name : String) (ls : LexState) (c : Command)
      (ls' : LexState),
      parseCommandLoop charLexer fuel name ls = .ok c ls' →
      ls'.hook.consumed = [] ∧ ls'.hook.pos = ls'.hook.streamPos ∧
        ls'.hook.lineNo = ls'.hook.curLineNo := by
  intro fuel
  induction fuel with
  | zero => intro name ls c ls' h; simp [parseCommandLoop] at h
  | succ n ih =>
      intro name ls c ls' h
      simp only [parseCommandLoop] at h
      split at h
      · cases h
      · split at h <;>
          [skip; skip; skip; skip; skip; skip; skip; skip; skip; skip;
           skip; skip; skip; skip; skip] <;>
        repeat' split at h
        all_goals
          first
          | exact ih _ _ _ _ h
          | (cases h; exact ⟨rfl, rfl, rfl⟩)
          | cases h

/-- Witness for `C3_clear_on_normal_return` on the input `cmd` + newline:
the normal return leaves an empty buffer with checkpoint at the stream
position and line. -/
theorem C3_clear_on_normal_return_witness :
    (LexState.mk ⟨[], 4, [], 4, 2, 2⟩ none).hook.consumed = [] ∧
      (LexState.mk ⟨[], 4, [], 4, 2, 2⟩ none).hook.pos =
        (LexState.mk ⟨[], 4, [], 4, 2, 2⟩ none).hook.streamPos ∧
      (LexState.mk ⟨[], 4, [], 4, 2, 2⟩ none).hook.lineNo =
        (LexState.mk ⟨[], 4, [], 4, 2, 2⟩ none).hook.curLineNo :=
  C3_clear_on_normal_return 20 "" (initState "cmd\n") ⟨"cmd", []⟩
    (LexState.mk ⟨[], 4, [], 4, 2, 2⟩ none) (by decide)

/-- Claim C2: while parsing a number list, a number token where a comma was
expected raises an `UnexpectedToken` error expecting a comma when exactly
one element has been collected (conjunct 1) but terminates the list at the
current position — the new number left unconsumed to start the next
argument — when at least two elements have been collected (conjunct 2);
and a comma where a number was expected always raises an `UnexpectedToken`
error expecting a number (conjunct 3). -/
theorem C2_juxtaposition_asymmetry :
    (∀ (fuel : Nat) (first : Bool) (toks : List CLIToken) (intv : Bool)
        (tok : CLIToken) (ts : List CLIToken),
        numTok tok → toks.length = 1 →
        parseNumberListLoop listLexer (fuel + 1) false first toks intv
            (tok :: ts) =
          .err (.unexpectedToken .Comma tok) ts)
    ∧ (∀ (fuel : Nat) (first : Bool) (toks : List CLIToken) (intv : Bool)
        (tok : CLIToken) (ts : List CLIToken),
        numTok tok → 2 ≤ toks.length →
        parseNumberListLoop listLexer (fuel + 1) false first toks intv
            (tok :: ts) =
          .ok (finalizeVec intv toks) (tok :: ts))
    ∧ (∀ (fuel : Nat) (first : Bool) (toks : List CLIToken) (intv : Bool)
        (tok : CLIToken) (ts : List CLIToken),
        tok.type = .Comma →
        parseNumberListLoop listLexer (fuel + 1) true first toks intv
            (tok :: ts) =
          .err (.unexpectedTokenStr "number" tok) ts) := by
  refine ⟨?_, ?_, ?_⟩
  · intro fuel first toks intv tok ts hn hl
    rcases hn with ht | ht <;> simp [parseNumberListLoop, listLexer, ht, hl]
  · intro fuel first toks intv tok ts hn hl
    have hl1 : ¬ (toks.length = 1) := by omega
    rcases hn with ht | ht <;> simp [parseNumberListLoop, listLexer, ht, hl1]
  · intro fuel first toks intv tok ts ht
    simp [parseNumberListLoop, listLexer, ht]

/-- Witness for `C2_juxtaposition_asymmetry`: a second number right after
a single collected element raises the expecting-comma error. -/
theorem C2_juxtaposition_asymmetry_witness :
    parseNumberListLoop listLexer 1 false false [⟨.Integer, "1", 0, 1⟩] true
        [⟨.Integer, "2", 2, 3⟩] =
      .err (.unexpectedToken .Comma ⟨.Integer, "2", 2, 3⟩) [] :=
  C2_juxtaposition_asymmetry.1 0 false [⟨.Integer, "1", 0, 1⟩] true
    ⟨.Integer, "2", 2, 3⟩ [] (Or.inl rfl) rfl

/-- Claim C5: for a raised diagnostic the highlighted sub-range of the
recorded buffer equals the offending token's `[begin, end)` mapped into
buffer-relative coordinates — the hypotheses of conjunct 1 hold at every
raise site, since the offending token is the last thing lexed after the
last checkpoint, so the buffer ends exactly at the token's `end` and the
inclusive-end `+ 1` inside `highlightRange` is clamped away; and if the
computed highlight range is out of order the snippet is omitted (empty
report) rather than raising a secondary error (conjunct 2). -/
theorem C5_snippet_highlight :
    (∀ (b e srcPos : Int) (size : Nat),
        srcPos ≤ b → b ≤ e → e - srcPos = (size : Int) →
        highlightRange b e srcPos size = (b - srcPos, e - srcPos))
    ∧ (∀ (source : String) (srcPos lineNo b e : Int),
        (highlightRange b e srcPos source.length).1 >
          (highlightRange b e srcPos source.length).2 →
        getSourceSnippetReport source srcPos lineNo b e = "") := by
  constructor
  · intro b e srcPos size h1 h2 h3
    unfold highlightRange
    rw [Prod.mk.injEq]
    constructor <;> omega
  · intro source srcPos lineNo b e hlt
    simp only [getSourceSnippetReport]
    rw [if_pos hlt]

/-- Witness for `C5_snippet_highlight`: the range of a token spanning a
two-character buffer, and an out-of-order range producing no snippet. -/
theorem C5_snippet_highlight_witness :
    highlightRange 0 2 0 2 = (0, 2) ∧
      getSourceSnippetReport "ab" 5 1 0 0 = "" :=
  ⟨C5_snippet_highlight.1 0 2 0 2 (by decide) (by decide) (by decide),
   C5_snippet_highlight.2 "ab" 5 1 0 0 (by decide)⟩

theorem string_push_append (v : String) (c : Char) (x : String) :
    v.push c ++ x = v ++ (c.toString ++ x) := by
  apply String.ext
  simp [String.data_push, String.data_append, Char.toString]

/-- Embeds `CLILexer::readString`'s loop refines the claim-side description
`specStringRun`: started on input `cs` with enough fuel, it produces the
accumulator followed by the described value, leaves exactly the described
rest unconsumed, and its reported end offset is the resulting stream
position. -/
theorem readStringLoop_run :
    ∀ (cs : List Char) (fuel : Nat) (s : HookState) (v : String)
      (esc : Bool), s.input = cs → cs.length + 1 ≤ fuel →
      (readStringLoop fuel s v s.streamPos esc).1 =
          v ++ (specStringRun esc cs).1 ∧
        (readStringLoop fuel s v s.streamPos esc).2.2.input =
          (specStringRun esc cs).2 ∧
        (readStringLoop fuel s v s.streamPos esc).2.1 =
          (readStringLoop fuel s v s.streamPos esc).2.2.streamPos := by
  intro cs
  induction cs with
  | nil =>
      intro fuel s v esc hi hf
      obtain ⟨n, rfl⟩ : ∃ n, fuel = n + 1 := by
        cases fuel with
        | zero => simp at hf
        | succ k => exact ⟨k, rfl⟩
      have hg : hookGet s = none := by unfold hookGet; rw [hi]
      simp [readStringLoop, hg, specStringRun, hi]
  | cons c r ih =>
      intro fuel s v esc hi hf
      obtain ⟨n, rfl⟩ : ∃ n, fuel = n + 1 := by
        cases fuel with
        | zero => simp at hf
        | succ k => exact ⟨k, rfl⟩
      have hn : r.length + 1 ≤ n := by
        simp only [List.length_cons] at hf
        omega
      have hg : hookGet s = some (c, ⟨r, s.streamPos + 1, s.consumed ++ [c],
          s.pos, s.lineNo,
          if c = '\n' then s.curLineNo + 1 else s.curLineNo⟩) := by
        unfold hookGet; rw [hi]
      have ih2 := fun v esc => ih n
        ⟨r, s.streamPos + 1, s.consumed ++ [c], s.pos, s.lineNo,
          if c = '\n' then s.curLineNo + 1 else s.curLineNo⟩ v esc rfl hn
      cases esc with
      | true =>
          by_cases hcr : c = '\r'
          · simpa [readStringLoop, hg, hcr, specStringRun] using ih2 v true
          · by_cases hcn : c = '\n'
            · simpa [readStringLoop, hg, hcr, hcn, specStringRun]
                using ih2 v false
            · have hpush := ih2 (v.push c) false
              simp only [readStringLoop, hg, if_neg hcr, if_neg hcn] at hpush ⊢
              simp only [specStringRun, if_neg hcr, if_neg hcn]
              simp only [if_true]
              refine ⟨?_, hpush.2.1, hpush.2.2⟩
              rw [hpush.1, string_push_append]
      | false =>
          by_cases hbs : c = '\\'
          · simpa [readStringLoop, hg, hbs, specStringRun] using ih2 v true
          · by_cases hq : c = '"'
            · simp [readStringLoop, hg, hbs, hq, specStringRun]
            · have hpush := ih2 (v.push c) false
              simp only [readStringLoop, hg, if_neg hbs, if_neg hq] at hpush ⊢
              simp only [specStringRun, if_neg hbs, if_neg hq]
              simp only [Bool.false_eq_true, if_false] at hpush ⊢
              refine ⟨?_, hpush.2.1, hpush.2.2⟩
              rw [hpush.1, string_push_append]

/-- Claim C7: for every string literal the lexer consumes until an
unescaped quote with backslash escape processing as `specStringRun`
describes (escaped carriage returns and newlines dropped, any other
escaped character literal), the token's `begin` is the offset of the
opening quote (one before the entry position of `readString`, which is
called with the quote already consumed) and `end` is one past the last
consumed character, i.e. one past the closing quote when one is found
(conjunct 1); tokenizing `"hello"` yields value `hello` with span
`[0, 7)`, and a backslash–newline between `a` and `b` is a line
continuation: the value is `ab` with span `[0, 6)` (conjuncts 2 and 3). -/
theorem C7_string_tokenization :
    (∀ (s : HookState) (tok : CLIToken) (s2 : HookState),
        readString s = (tok, s2) →
        tok.type = .String ∧ tok.value = specStringValue s.input ∧
        tok.tbegin = s.streamPos - 1 ∧ tok.tend = s2.streamPos ∧
        s2.input = (specStringRun false s.input).2)
    ∧ (readNextToken (hookInit "\"hello\" x")).map Prod.fst =
        some ⟨.String, "hello", 0, 7⟩
    ∧ (readNextToken (hookInit "\"a\\\nb\" x")).map Prod.fst =
        some ⟨.String, "ab", 0, 6⟩ := by
  refine ⟨?_, by decide, by decide⟩
  intro s tok s2 h
  have hr := readStringLoop_run s.input (s.input.length + 1) s "" false rfl
    (le_refl _)
  unfold readString at h
  rw [Prod.mk.injEq] at h
  obtain ⟨h1, h2⟩ := h
  subst h2
  rw [← h1]
  refine ⟨rfl, ?_, rfl, ?_, hr.2.1⟩
  · rw [specStringValue, hr.1]
    simp
  · exact hr.2.2

/-- Witness for `C7_string_tokenization` on the body `hello"` (the state
right after an opening quote was consumed). -/
theorem C7_string_tokenization_witness :
    readString (hookInit "hello\"") =
      (⟨.String, "hello", -1, 6⟩,
        ⟨[], 6, ['h', 'e', 'l', 'l', 'o', '"'], 0, 1, 1⟩) ∧
      (⟨.String, "hello", -1, 6⟩ : CLIToken).value =
        specStringValue (hookInit "hello\"").input :=
  ⟨by decide,
   (C7_string_tokenization.1 (hookInit "hello\"") ⟨.String, "hello", -1, 6⟩
      ⟨[], 6, ['h', 'e', 'l', 'l', 'o', '"'], 0, 1, 1⟩ (by decide)).2.1⟩

theorem unterminated_specStringRun_rest :
    ∀ (cs : List Char) (esc : Bool), unterminated esc cs = true →
      (specStringRun esc cs).2 = [] := by
  intro cs
  induction cs with
  | nil => intro esc _; cases esc <;> simp [specStringRun]
  | cons c r ih =>
      intro esc hu
      cases esc with
      | true =>
          by_cases hcr : c = '\r'
          · simp only [unterminated, hcr, if_pos rfl] at hu
            simpa [specStringRun, hcr] using ih true hu
          · simp only [unterminated, if_neg hcr] at hu
            by_cases hcn : c = '\n'
            · simpa [specStringRun, hcr, hcn] using ih false hu
            · simp only [specStringRun, if_neg hcr, if_neg hcn]
              exact ih false hu
      | false =>
          by_cases hbs : c = '\\'
          · simp only [unterminated, hbs, if_pos rfl] at hu
            simpa [specStringRun, hbs] using ih true hu
          · by_cases hq : c = '"'
            · simp [unterminated, if_neg hbs, hq] at hu
            · simp only [unterminated, if_neg hbs, if_neg hq] at hu
              simp only [specStringRun, if_neg hbs, if_neg hq]
              exact ih false hu

/-- Claim C10 (implicit): when end-of-input arrives inside a string literal
before an unescaped closing quote, the lexer still returns a `String`
token (not `Unknown`) whose value is the consumed characters with escape
processing applied, consuming the whole rest of the input and raising
nothing (conjunct 1); and the parser accepts such a token as an ordinary
`String` argument: `cmd "abc` at end of input parses to the command `cmd`
with the single string argument `abc` (conjunct 2). -/
theorem C10_unterminated_string :
    (∀ s : HookState, unterminated false s.input = true →
        (readString s).1.type = .String ∧
        (readString s).1.value = specStringValue s.input ∧
        (readString s).2.input = [])
    ∧ prOk? (parseCommandStr 100 "cmd \"abc") = some ⟨"cmd", [.str "abc"]⟩ := by
  refine ⟨?_, by decide⟩
  intro s hu
  have hr := readStringLoop_run s.input (s.input.length + 1) s "" false rfl
    (le_refl _)
  simp only [readString]
  refine ⟨trivial, ?_, ?_⟩
  · rw [specStringValue, hr.1]
    simp
  · rw [hr.2.1]
    exact unterminated_specStringRun_rest s.input false hu

theorem listLexer_peekT_cons (t : CLIToken) (ts : List CLIToken) :
    listLexer.peekT (t :: ts) = some (t, t :: ts) := rfl

theorem listLexer_nextT_cons (t : CLIToken) (ts : List CLIToken) :
    listLexer.nextT (t :: ts) = some (t, ts) := rfl

/-- One collection step of `parseNumberList`'s loop: a number token in the
expecting-a-number state is consumed and appended, and the
`integer_vector` flag drops to `false` exactly when the token was lexed as
a float. -/
theorem parseNumberListLoop_collect_step (t : CLIToken) (ts : List CLIToken)
    (acc : List CLIToken) (intv first : Bool) (fuel : Nat) (hn : numTok t) :
    parseNumberListLoop listLexer (fuel + 1) true first acc intv (t :: ts) =
      parseNumberListLoop listLexer fuel false false (acc ++ [t])
        (intv && decide (t.type = .Integer)) ts := by
  rcases hn with ht | ht <;> simp [parseNumberListLoop, listLexer, ht]

/-- One separator step of `parseNumberList`'s loop: a comma in the
just-saw-a-number state is consumed and flips the state back to
expecting a number. -/
theorem parseNumberListLoop_comma_step (tok : CLIToken) (ts : List CLIToken)
    (acc : List CLIToken) (intv first : Bool) (fuel : Nat)
    (hc : tok.type = .Comma) :
    parseNumberListLoop listLexer (fuel + 1) false first acc intv
        (tok :: ts) =
      parseNumberListLoop listLexer fuel true first acc intv ts := by
  simp [parseNumberListLoop, listLexer, hc]

/-- The terminating step of `parseNumberList`'s loop: in the
just-saw-a-number state with a stream head that neither continues the list
nor is a comma (or with the stream exhausted), the loop finalizes the
collected tokens without consuming anything. -/
theorem parseNumberListLoop_ender_step (rest : List CLIToken)
    (he : listEnder rest) (acc : List CLIToken) (intv : Bool) (fuel : Nat) :
    parseNumberListLoop listLexer (fuel + 1) false false acc intv rest =
      .ok (finalizeVec intv acc) rest := by
  cases rest with
  | nil => simp [parseNumberListLoop, listLexer, eofTok]
  | cons r rs =>
      obtain ⟨h1, h2, h3⟩ := he
      cases hrt : r.type <;> simp_all [parseNumberListLoop, listLexer]

/-- Embeds `parseNumberList`'s loop started in the expecting-a-number state on a
comma-separated list of number tokens collects exactly those tokens after
the accumulator, finalizes as an integer vector iff the incoming flag was
set and every collected token was lexed as an integer, and leaves the
terminator unconsumed. -/
theorem parseNumberListLoop_commaSep :
    ∀ (nums rest ts : List CLIToken), CommaSep nums rest ts →
      ∀ (acc : List CLIToken) (intv first : Bool) (fuel : Nat),
        2 * nums.length + 1 ≤ fuel →
        parseNumberListLoop listLexer fuel true first acc intv ts =
          .ok (finalizeVec
              (intv && nums.all (fun t => decide (t.type = .Integer)))
              (acc ++ nums)) rest := by
  intro nums rest ts hcs
  induction hcs with
  | last t rest hnum hend =>
      intro acc intv first fuel hf
      obtain ⟨f, rfl⟩ : ∃ f, fuel = f + 2 :=
        ⟨fuel - 2, by simp at hf; omega⟩
      rw [show f + 2 = (f + 1) + 1 from rfl,
        parseNumberListLoop_collect_step t rest acc intv first (f + 1) hnum,
        parseNumberListLoop_ender_step rest hend _ _ f]
      simp
  | cons t c nums rest ts hnum hc _ ih =>
      intro acc intv first fuel hf
      obtain ⟨f, rfl⟩ : ∃ f, fuel = f + 2 :=
        ⟨fuel - 2, by simp at hf; omega⟩
      rw [show f + 2 = (f + 1) + 1 from rfl,
        parseNumberListLoop_collect_step t (c :: ts) acc intv first (f + 1)
          hnum,
        parseNumberListLoop_comma_step c ts _ _ false f hc,
        ih _ _ _ f (by simp at hf ⊢; omega)]
      simp [Bool.and_assoc]

/-- With every collected token an integer token, `parseIntegerVector`'s
per-token dispatch reduces to `stoll` on each value. -/
theorem parseIntegerVector_all_int (nums : List CLIToken)
    (h : nums.all (fun t => decide (t.type = .Integer)) = true) :
    nums.map (fun t =>
        if t.type = .Integer then stollM t.value else truncQ (stodQ t.value)) =
      nums.map (fun t => stollM t.value) := by
  apply List.map_congr_left
  intro a ha
  rw [List.all_eq_true] at h
  have := h a ha
  simp at this
  simp [this]

/-- With every collected token an integer token, `parseFloatVector`'s
per-token dispatch reduces to integer parsing followed by the
integer-to-double conversion. -/
theorem parseFloatVector_all_int (nums : List CLIToken)
    (h : nums.all (fun t => decide (t.type = .Integer)) = true) :
    nums.map (fun t =>
        if t.type = .Integer then i64ToDouble (stollM t.value)
        else stodQ t.value) =
      (nums.map (fun t => stollM t.value)).map (fun n => i64ToDouble n) := by
  rw [List.map_map]
  apply List.map_congr_left
  intro a ha
  rw [List.all_eq_true] at h
  have := h a ha
  simp at this
  simp [this, Function.comp]

/-- Claim C1: a comma-separated list of number tokens parsed as one
argument (a leading number token, a comma, then the rest of the list)
yields the vector `specNumberArg` describes: an `IntegerVector` of the
parsed integers unless at least one element was lexed as a `Float`, in
which case a `FloatVector` in which every `Integer` element — including
the leading one consumed before the first comma — is converted to its
floating-point value (conjunct 1; once a float is seen the all-integers
test can never again succeed, so the vector never reverts).  Through the
whole pipeline, `1,2,3` yields IntegerVector `[1,2,3]`, `1,2.5,3` yields
FloatVector `[1, 5/2, 3]` and `2.0,1` yields FloatVector `[2, 1]`
(conjuncts 2–4). -/
theorem C1_vector_promotion :
    (∀ (t1 c : CLIToken) (nums rest ts : List CLIToken) (fuel : Nat),
        numTok t1 → c.type = .Comma → CommaSep nums rest ts →
        2 * nums.length + 1 ≤ fuel →
        parseArgument listLexer fuel (t1 :: c :: ts) =
          .ok (specNumberArg (t1 :: nums)) rest)
    ∧ prOk? (parseCommandStr 100 "cmd 1,2,3\n") =
        some ⟨"cmd", [.integerVector [1, 2, 3]]⟩
    ∧ prOk? (parseCommandStr 100 "cmd 1,2.5,3\n") =
        some ⟨"cmd", [.floatVector [1, mkRat 5 2, 3]]⟩
    ∧ prOk? (parseCommandStr 100 "cmd 2.0,1\n") =
        some ⟨"cmd", [.floatVector [2, 1]]⟩ := by
  refine ⟨?_, by decide, by decide, by decide⟩
  intro t1 c nums rest ts fuel hn hc hcs hf
  have hloop := parseNumberListLoop_commaSep nums rest ts hcs [] true true
    fuel hf
  simp only [List.nil_append, Bool.true_and] at hloop
  rcases hn with ht | ht
  · -- leading token lexed as Integer
    cases hall : nums.all (fun t => decide (t.type = .Integer)) with
    | true =>
        rw [hall] at hloop
        simp [parseArgument, parseNumberList, listLexer_peekT_cons,
          listLexer_nextT_cons, ht, hc, hloop, finalizeVec,
          parseIntegerVector, parseFloatVector, specNumberArg, hall,
          parseIntegerVector_all_int nums hall,
          parseFloatVector_all_int nums hall]
    | false =>
        rw [hall] at hloop
        simp [parseArgument, parseNumberList, listLexer_peekT_cons,
          listLexer_nextT_cons, ht, hc, hloop, finalizeVec,
          parseIntegerVector, parseFloatVector, specNumberArg, hall]
  · -- leading token lexed as Float
    cases hall : nums.all (fun t => decide (t.type = .Integer)) with
    | true =>
        rw [hall] at hloop
        simp [parseArgument, parseNumberList, listLexer_peekT_cons,
          listLexer_nextT_cons, ht, hc, hloop, finalizeVec,
          parseIntegerVector, parseFloatVector, specNumberArg, hall,
          parseIntegerVector_all_int nums hall,
          parseFloatVector_all_int nums hall]
    | false =>
        rw [hall] at hloop
        simp [parseArgument, parseNumberList, listLexer_peekT_cons,
          listLexer_nextT_cons, ht, hc, hloop, finalizeVec,
          parseIntegerVector, parseFloatVector, specNumberArg, hall]

/-- Witness for `C1_vector_promotion` on the token stream of `1,2.5`:
the result is the promoted float vector. -/
theorem C1_vector_promotion_witness :
    parseArgument listLexer 10
        [⟨.Integer, "1", 0, 1⟩, ⟨.Comma, ",", 1, 2⟩,
          ⟨.Float, "2.500000", 2, 5⟩] =
      .ok (specNumberArg [⟨.Integer, "1", 0, 1⟩, ⟨.Float, "2.500000", 2, 5⟩])
        [] :=
  C1_vector_promotion.1 ⟨.Integer, "1", 0, 1⟩ ⟨.Comma, ",", 1, 2⟩
    [⟨.Float, "2.500000", 2, 5⟩] [] [⟨.Float, "2.500000", 2, 5⟩] 10
    (Or.inl rfl) rfl
    (CommaSep.last ⟨.Float, "2.500000", 2, 5⟩ [] (Or.inr rfl) trivial)
    (by decide)

/-- Witness for `C10_unterminated_string` on the unterminated body `abc`. -/
theorem C10_unterminated_string_witness :
    unterminated false (hookInit "abc").input = true ∧
      (readString (hookInit "abc")).1.type = .String ∧
      (readString (hookInit "abc")).1.value =
        specStringValue (hookInit "abc").input ∧
      (readString (hookInit "abc")).2.input = [] :=
  ⟨by decide, C10_unterminated_string.1 (hookInit "abc") (by decide)⟩

theorem string_mk_cons (c : Char) (l : List Char) :
    String.mk (c :: l) = c.toString ++ String.mk l := by
  apply String.ext
  simp [Char.toString]

/-- Embeds `CLILexer::readNumber`'s loop consumes exactly the maximal prefix of
characters in the `numChar` class (a NUL, which stops the C++
`while ((c = stream_.peek()))` condition, is not in the class, so the two
exit paths agree), appending them to the accumulator and advancing the
reported end offset and the stream by their count. -/
theorem readNumberLoop_run :
    ∀ (cs : List Char) (fuel : Nat) (s : HookState) (v : String),
      s.input = cs → cs.length + 1 ≤ fuel →
      (readNumberLoop fuel s v s.streamPos).1 =
          v ++ String.mk (cs.takeWhile (fun c => numChar c)) ∧
        (readNumberLoop fuel s v s.streamPos).2.1 =
          s.streamPos + ((cs.takeWhile (fun c => numChar c)).length : Int) ∧
        (readNumberLoop fuel s v s.streamPos).2.2.input =
          cs.dropWhile (fun c => numChar c) := by
  intro cs
  induction cs with
  | nil =>
      intro fuel s v hi hf
      obtain ⟨n, rfl⟩ : ∃ n, fuel = n + 1 := by
        cases fuel with
        | zero => simp at hf
        | succ k => exact ⟨k, rfl⟩
      have hpk : hookPeek s = eofChar := by unfold hookPeek; rw [hi]
      have : ¬ numChar eofChar = true := by decide
      simp only [readNumberLoop, hpk,
        if_neg (by decide : ¬ (eofChar = Char.ofNat 0)), if_neg this]
      refine ⟨?_, by simp, by rw [hi]; rfl⟩
      apply String.ext
      simp
  | cons c r ih =>
      intro fuel s v hi hf
      obtain ⟨n, rfl⟩ : ∃ n, fuel = n + 1 := by
        cases fuel with
        | zero => simp at hf
        | succ k => exact ⟨k, rfl⟩
      have hn : r.length + 1 ≤ n := by
        simp only [List.length_cons] at hf
        omega
      have hpk : hookPeek s = c := by unfold hookPeek; rw [hi]
      have hg : hookGet s = some (c, ⟨r, s.streamPos + 1, s.consumed ++ [c],
          s.pos, s.lineNo,
          if c = '\n' then s.curLineNo + 1 else s.curLineNo⟩) := by
        unfold hookGet; rw [hi]
      by_cases hz : c = Char.ofNat 0
      · have hnc : numChar c = false := by rw [hz]; decide
        simp only [readNumberLoop, hpk, if_pos hz]
        refine ⟨?_, ?_, ?_⟩
        · rw [List.takeWhile_cons_of_neg (by simp [hnc])]
          apply String.ext
          simp
        · rw [List.takeWhile_cons_of_neg (by simp [hnc])]
          simp
        · rw [hi, List.dropWhile_cons_of_neg (by simp [hnc])]
      · by_cases hnc : numChar c = true
        · have hrec := ih n ⟨r, s.streamPos + 1, s.consumed ++ [c], s.pos,
            s.lineNo, if c = '\n' then s.curLineNo + 1 else s.curLineNo⟩
            (v.push c) rfl hn
          dsimp only at hrec
          have hstep : readNumberLoop (n + 1) s v s.streamPos =
              readNumberLoop n ⟨r, s.streamPos + 1, s.consumed ++ [c], s.pos,
                s.lineNo, if c = '\n' then s.curLineNo + 1 else s.curLineNo⟩
                (v.push c) (s.streamPos + 1) := by
            simp [readNumberLoop, hpk, hg, hz, hnc]
          rw [hstep]
          refine ⟨?_, ?_, ?_⟩
          · rw [hrec.1, string_push_append, ← string_mk_cons,
              List.takeWhile_cons_of_pos (by simp [hnc])]
          · rw [hrec.2.1, List.takeWhile_cons_of_pos (by simp [hnc])]
            simp only [List.length_cons]
            push_cast
            omega
          · rw [hrec.2.2, List.dropWhile_cons_of_pos (by simp [hnc])]
        · simp only [readNumberLoop, hpk, if_neg hz, if_neg hnc]
          refine ⟨?_, ?_, ?_⟩
          · rw [List.takeWhile_cons_of_neg hnc]
            apply String.ext
            simp
          · rw [List.takeWhile_cons_of_neg hnc]
            simp
          · rw [hi, List.dropWhile_cons_of_neg hnc]

/-- The token the number lexer should produce on a greedily consumed raw
lexeme starting at offset `b`, as the spec words it: `Integer` (with the
canonicalized integer text) if the suffix-stripped candidate parses
exactly as an integer and no suffix was present; `Unknown` (raw text) if
that parse succeeds but a suffix was present; otherwise `Float` (with the
formatted parsed value) if the candidate parses exactly as a
floating-point value; otherwise `Unknown` (raw text). -/
def specNumberToken {F : Type} (fparse : String → Option F)
    (ffmt : F → String) (raw : String) (b : Int) : CLIToken :=
  match parseInt64 (stripSufF raw) with
  | some n =>
      if hasSufF raw then ⟨.Unknown, raw, b, b + (raw.length : Int)⟩
      else ⟨.Integer, intToString n, b, b + (raw.length : Int)⟩
  | none =>
      match fparse (stripSufF raw) with
      | some x => ⟨.Float, ffmt x, b, b + (raw.length : Int)⟩
      | none => ⟨.Unknown, raw, b, b + (raw.length : Int)⟩

/-- Claim C6: for every lexeme the number lexer greedily consumes the
maximal run of digits, letters, `_`, `.`, `-`, `+` and classifies it per
`specNumberToken` — `Integer` when the suffix-stripped candidate parses
exactly as a 64-bit integer and no `f`/`F` suffix was present, `Unknown`
when such a parse succeeds but a suffix was present, else `Float` when the
candidate parses exactly as a floating-point value, else `Unknown`; the
token spans exactly the consumed run, and for `Integer`/`Float` the value
is the canonicalized textual form of the parsed value, not the raw text
(conjunct 1, for arbitrary library float parse/format routines).
Concretely: `007` lexes as Integer `7` (canonicalized), `2.5` as Float
`2.500000`, `12f` as Unknown `12f` (integer parse succeeds but the suffix
is only legal on floats), and `1.2.3` as Unknown (conjuncts 2–5). -/
theorem C6_number_classification :
    (∀ {F : Type} (fparse : String → Option F) (ffmt : F → String)
        (s : HookState),
        (readNumberG fparse ffmt s).1 =
          specNumberToken fparse ffmt
            (String.mk (s.input.takeWhile (fun c => numChar c)))
            s.streamPos ∧
        (readNumberG fparse ffmt s).2.input =
          s.input.dropWhile (fun c => numChar c))
    ∧ (readNextToken (hookInit "007 ")).map Prod.fst =
        some ⟨.Integer, "7", 0, 3⟩
    ∧ (readNextToken (hookInit "2.5 ")).map Prod.fst =
        some ⟨.Float, "2.500000", 0, 3⟩
    ∧ (readNextToken (hookInit "12f ")).map Prod.fst =
        some ⟨.Unknown, "12f", 0, 3⟩
    ∧ (readNextToken (hookInit "1.2.3 ")).map Prod.fst =
        some ⟨.Unknown, "1.2.3", 0, 5⟩ := by
  refine ⟨?_, by decide, by decide, by decide, by decide⟩
  intro F fparse ffmt s
  have hrun := readNumberLoop_run s.input (s.input.length + 1) s "" rfl
    (le_refl _)
  have hv : (readNumberLoop (s.input.length + 1) s "" s.streamPos).1 =
      String.mk (s.input.takeWhile (fun c => numChar c)) := by
    rw [hrun.1]
    apply String.ext
    simp
  have hlen : ((String.mk (s.input.takeWhile (fun c => numChar c))).length
      : Int) = ((s.input.takeWhile (fun c => numChar c)).length : Int) := by
    rfl
  simp only [readNumberG, specNumberToken, hv, hrun.2.1, hrun.2.2]
  cases hI : parseInt64 (stripSufF
      (String.mk (s.input.takeWhile (fun c => numChar c)))) with
  | some n =>
      cases hS : hasSufF (String.mk (s.input.takeWhile (fun c => numChar c)))
        with
      | true => simp [hI, hS, hlen, Int.add_comm, hrun.2.2]
      | false => simp [hI, hS, hlen, Int.add_comm, hrun.2.2]
  | none =>
      cases hF : fparse (stripSufF
          (String.mk (s.input.takeWhile (fun c => numChar c)))) with
      | some x => simp [hI, hF, hlen, Int.add_comm, hrun.2.2]
      | none => simp [hI, hF, hlen, Int.add_comm, hrun.2.2]

/-- Witness for `C6_number_classification`, instantiated with the rational
models of the library float routines on the lexeme `2.5`. -/
theorem C6_number_classification_witness :
    (readNumberG parseFloatQ floatFmtQ (hookInit "2.5 ")).1 =
      specNumberToken parseFloatQ floatFmtQ
        (String.mk ((hookInit "2.5 ").input.takeWhile (fun c => numChar c)))
        (hookInit "2.5 ").streamPos ∧
      (readNumberG parseFloatQ floatFmtQ (hookInit "2.5 ")).2.input =
        (hookInit "2.5 ").input.dropWhile (fun c => numChar c) :=
  C6_number_classification.1 parseFloatQ floatFmtQ (hookInit "2.5 ")

end ArgCLITool
